import Mathlib

/-!
Verification of the `decode` subcommand of cantools
(`src/cantools/subparsers/decode.py`).

The file shallowly embeds the pieces of `decode.py` that the verified
properties are about: the two line grammars (`RE_CANDUMP`,
`RE_CANDUMP_LOG`) together with their unpack functions (`_mo_unpack`,
`_log_mo_unpack`), the per-record console/publish step of `_do_decode`,
and the batching/queueing behaviour of the influxdb path
(`influx_json`, `asyncio.Queue`, `_influx_worker`).

Lines are modelled as `List Char`; bytes as `Nat` (< 256); fallible
Python operations (`binascii.unhexlify`, `struct.unpack`) as `Option`.
-/

namespace Decode

/-! ### Character classes used by the two regular expressions.
Classes are phrased on `Char.toNat` so that facts about them reduce to
linear arithmetic.  ASCII: '0'..'9' = 48..57, 'A'..'Z' = 65..90,
'a'..'z' = 97..122, ' ' = 32. -/

def isDig (c : Char) : Bool := 48 ≤ c.toNat && c.toNat ≤ 57

def isHexUp (c : Char) : Bool := isDig c || (65 ≤ c.toNat && c.toNat ≤ 70)

def isLetter (c : Char) : Bool :=
  (65 ≤ c.toNat && c.toNat ≤ 90) || (97 ≤ c.toNat && c.toNat ≤ 122)

def isAlnum (c : Char) : Bool := isDig c || isLetter c

/-- Python's `\s` class: space, tab, newline, carriage return, vertical
tab, form feed. -/
def isPySpace (c : Char) : Bool :=
  c.toNat = 32 || c.toNat = 9 || c.toNat = 10 || c.toNat = 13 ||
  c.toNat = 11 || c.toNat = 12

def isHexOrSpace (c : Char) : Bool := isHexUp c || c.toNat = 32

/-! ### `binascii.unhexlify` and `struct.unpack('>I', ...)` -/

/-- Value of one hex digit as accepted by `binascii.unhexlify`
(both cases); `none` on a non-hex character (`binascii.Error`). -/
def hexDigVal (c : Char) : Option Nat :=
  if 48 ≤ c.toNat ∧ c.toNat ≤ 57 then some (c.toNat - 48)
  else if 65 ≤ c.toNat ∧ c.toNat ≤ 70 then some (c.toNat - 55)
  else if 97 ≤ c.toNat ∧ c.toNat ≤ 102 then some (c.toNat - 87)
  else none

/-- `binascii.unhexlify`: pairs of hex digits to bytes; `none` on odd
length or a non-hex character (both raise `binascii.Error`). -/
def unhexlify : List Char → Option (List Nat)
  | [] => some []
  | [_] => none
  | c1 :: c2 :: rest =>
    match hexDigVal c1, hexDigVal c2, unhexlify rest with
    | some h, some lo, some bs => some ((16 * h + lo) :: bs)
    | _, _, _ => none

/-- `struct.unpack('>I', b)[0]`: requires exactly 4 bytes
(`struct.error` otherwise), big-endian unsigned 32-bit value. -/
def unpackU32BE : List Nat → Option Nat
  | [b0, b1, b2, b3] => some (((b0 * 256 + b1) * 256 + b2) * 256 + b3)
  | _ => none

/-- Big-endian value of a byte string. -/
def beVal (bs : List Nat) : Nat := bs.foldl (fun a b => 256 * a + b) 0

/-- Value of an uppercase-hex digit (total; meaningful under `isHexUp`). -/
def upVal (c : Char) : Nat := if isDig c then c.toNat - 48 else c.toNat - 55

/-- Numeric value of an uppercase-hex string. -/
def hexValUp (l : List Char) : Nat := l.foldl (fun a c => 16 * a + upVal c) 0

/-! ### The live-mode grammar `RE_CANDUMP`

`RE_CANDUMP = r'^.*  ([0-9A-F]+)   \[\d+\]\s*([0-9A-F ]*)$'` used via
`re.match`.  The part after `.*` is deterministic once its position is
fixed: `[0-9A-F]+` is greedy and a shorter take leaves a hex character
where a space is required, `\d+` likewise before `]`, and a shorter
`\s*` only moves whitespace into `([0-9A-F ]*)` without removing the
character that made it fail, so maximal runs are faithful.  The greedy
`.*` is modelled by trying split points from the longest prefix (i.e.
the shortest suffix) first, exactly as the backtracking engine does.
Input lines come from `readline` followed by `strip('\r\n')`, so they
contain no newline; the `.`/`$` newline subtleties are outside the
modelled domain. -/

/-- Consume one expected character. -/
def expectChar (c : Char) : List Char → Option (List Char)
  | x :: r => if x = c then some r else none
  | [] => none

/-- Match `'  ([0-9A-F]+)   \[\d+\]\s*([0-9A-F ]*)$'` at the head of
`l`, returning the two groups. -/
def matchTail (l : List Char) : Option (List Char × List Char) :=
  match (expectChar ' ' l).bind (expectChar ' ') with
  | none => none
  | some rest =>
    let g1 := rest.takeWhile isHexUp
    let r1 := rest.dropWhile isHexUp
    if g1 = [] then none
    else
      match (((expectChar ' ' r1).bind (expectChar ' ')).bind
              (expectChar ' ')).bind (expectChar '[') with
      | none => none
      | some r2 =>
        let ds := r2.takeWhile isDig
        let r3 := r2.dropWhile isDig
        if ds = [] then none
        else
          match expectChar ']' r3 with
          | none => none
          | some r4 =>
            let g2 := r4.dropWhile isPySpace
            if g2.all isHexOrSpace then some (g1, g2) else none

/-- Greedy `^.*` followed by `matchTail`: the shortest suffix at which
the tail matches (= longest `.*`) wins, matching the regex engine. -/
def candumpSplit : List Char → Option (List Char × List Char)
  | [] => matchTail []
  | c :: cs =>
    match candumpSplit cs with
    | some g => some g
    | none => matchTail (c :: cs)

/-- `RE_CANDUMP.match(line)`: on success, `(group(0), group(1),
group(2))`; the pattern is anchored at both ends so `group(0)` is the
whole line. -/
def matchCandump (line : List Char) : Option (List Char × List Char × List Char) :=
  match candumpSplit line with
  | some (g1, g2) => some (line, g1, g2)
  | none => none

/-- `_mo_unpack(mo)` (decode.py lines 47-60), minus the wall-clock
timestamp (`time.time()` is an environment input, irrelevant to the
claims).  `link = mo.group(0)`; the frame id is left-zero-padded to 8
hex digits, unhexlified and unpacked as `>I`; the payload has its
spaces removed and is unhexlified. -/
def mo_unpack (g0 g1 g2 : List Char) : Option (List Char × Nat × List Nat) :=
  match unhexlify (List.replicate (8 - g1.length) '0' ++ g1) with
  | none => none
  | some fidBytes =>
    match unpackU32BE fidBytes with
    | none => none
    | some fid =>
      match unhexlify (g2.filter (fun c => c != ' ')) with
      | none => none
      | some data => some (g0, fid, data)

/-! ### The log-mode grammar `RE_CANDUMP_LOG`

`RE_CANDUMP_LOG =
  r'^\(([0-9]{10}.[0-9]{6})\) ([A-Za-z]{3,4}[0-9]{1,2}) ([0-9A-Za-z]{3,8})#([0-9A-Za-z]{2,16})$'`.

The leading group has fixed widths (note the unescaped `.`, which
matches any character but a newline).  For the counted classes the
backtracking is again deterministic: `[A-Za-z]{3,4}` can only succeed
by taking the whole maximal letter run (a shorter take leaves a letter
where a digit is required), so the run length must be 3 or 4; likewise
the digit run must have length 1 or 2, the id run (followed by `#`,
which is not alphanumeric) length 3..8, and the final run, anchored by
`$`, length 2..16. -/
def matchCandumpLog (l : List Char) :
    Option (List Char × List Char × List Char × List Char) :=
  match l with
  | p0 :: a1 :: a2 :: a3 :: a4 :: a5 :: a6 :: a7 :: a8 :: a9 :: a10 ::
    dt :: b1 :: b2 :: b3 :: b4 :: b5 :: b6 :: p1 :: sp :: rest =>
    if p0 = '(' ∧ [a1, a2, a3, a4, a5, a6, a7, a8, a9, a10].all isDig = true ∧
       dt ≠ '\n' ∧ [b1, b2, b3, b4, b5, b6].all isDig = true ∧
       p1 = ')' ∧ sp = ' ' then
      let lets := rest.takeWhile isLetter
      let r1 := rest.dropWhile isLetter
      if 3 ≤ lets.length ∧ lets.length ≤ 4 then
        let digs := r1.takeWhile isDig
        let r2 := r1.dropWhile isDig
        if 1 ≤ digs.length ∧ digs.length ≤ 2 then
          match expectChar ' ' r2 with
          | none => none
          | some r3 =>
            let idrun := r3.takeWhile isAlnum
            let r4 := r3.dropWhile isAlnum
            if 3 ≤ idrun.length ∧ idrun.length ≤ 8 then
              match expectChar '#' r4 with
              | none => none
              | some r5 =>
                if r5.all isAlnum = true ∧ 2 ≤ r5.length ∧ r5.length ≤ 16 then
                  some ([a1, a2, a3, a4, a5, a6, a7, a8, a9, a10, dt,
                         b1, b2, b3, b4, b5, b6],
                        lets ++ digs, idrun, r5)
                else none
            else none
        else none
      else none
    else none
  | _ => none

/-! ### Exact binary64 model of `int(float(ts) * 1e9)`

`_log_mo_unpack` runs the timestamp group through Python floats:
`float(ts)` is the correctly rounded (to nearest, ties to even)
binary64 value of the decimal string, `* 1e9` is a correctly rounded
binary64 multiplication (`1e9` itself is exact), and `int` truncates
toward zero.  For the magnitudes involved all values are normal, so
the rounding is plain round-to-nearest-even at 53 significant bits. -/

/-- Round `num / den` to the nearest integer, ties to even. -/
def rnde (num den : Nat) : Nat :=
  let q := num / den
  let r := num % den
  if 2 * r < den then q
  else if den < 2 * r then q + 1
  else if q % 2 = 0 then q else q + 1

/-- Fueled `floor (log2 n)` (structural recursion, so it reduces in
the kernel; fuel `n` is always sufficient). -/
def log2fuel : Nat → Nat → Nat
  | 0, _ => 0
  | f + 1, n => if 2 ≤ n then log2fuel f (n / 2) + 1 else 0

def natLog2 (n : Nat) : Nat := log2fuel n n

/-- Round the positive rational `num / den` (with `den ≤ num`, normal
binary64 range) to the nearest binary64, ties to even; the result is
returned as a dyadic rational (numerator, denominator). -/
def dblRound (num den : Nat) : Nat × Nat :=
  let k := natLog2 (num / den)
  if k ≤ 52 then (rnde (num * 2 ^ (52 - k)) den, 2 ^ (52 - k))
  else (rnde num (den * 2 ^ (k - 52)) * 2 ^ (k - 52), 1)

/-- `int(float(s) * 1e9)` where the decimal string `s` denotes
`usec / 10^6` seconds (`usec` in microseconds). -/
def intFloatMul1e9 (usec : Nat) : Nat :=
  let d1 := dblRound usec 1000000
  let d2 := dblRound (d1.1 * 1000000000) d1.2
  d2.1 / d2.2

/-- Decimal value of a digit string. -/
def digitsVal (l : List Char) : Nat :=
  l.foldl (fun a c => 10 * a + (c.toNat - 48)) 0

/-- The timestamp conversion of `_log_mo_unpack` (lines 32-35):
`float(mo.group(1))` then `int(... * 1e9)`, under exact binary64
semantics.  Modelled for the decimal shape `dddddddddd.dddddd`; for
other middle characters admitted by the regex's unescaped `.` the
`float` call is not modelled (`none`). -/
def pyTimestampNs (g : List Char) : Option Nat :=
  let ip := g.take 10
  let dt := (g.drop 10).take 1
  let fr := g.drop 11
  if dt = ['.'] ∧ ip.all isDig = true ∧ fr.all isDig = true then
    some (intFloatMul1e9 (digitsVal ip * 1000000 + digitsVal fr))
  else none

/-- `data.ljust(16, '0')`. -/
def ljust16 (l : List Char) : List Char :=
  l ++ List.replicate (16 - l.length) '0'

/-- `_log_mo_unpack(mo)` (decode.py lines 31-45): timestamp in integer
nanoseconds, `link = mo.group(2)`, frame id left-zero-padded to 8 hex
digits and unpacked `>I`, payload right-zero-padded to 16 hex digits
(`ljust`) and unhexlified. -/
def log_mo_unpack (g1 g2 g3 g4 : List Char) :
    Option (Nat × List Char × Nat × List Nat) :=
  match pyTimestampNs g1,
        unhexlify (List.replicate (8 - g3.length) '0' ++ g3),
        unhexlify (ljust16 g4) with
  | some ts, some fidBytes, some data =>
    match unpackU32BE fidBytes with
    | some fid => some (ts, g2, fid, data)
    | none => none
  | _, _, _ => none

/-! ### The line loop of `_do_decode` (lines 94-122)

Each line is matched against the mode's regex; a match is unpacked, a
non-match executes `break` — in `dump` mode (line 114) and in `log`
mode (line 118) alike.  An unpack failure (`binascii.Error` /
`struct.error`) is an uncaught exception that likewise ends the loop. -/

inductive Mode
  | dump
  | log
deriving DecidableEq

inductive FrameRec
  | live (link : List Char) (fid : Nat) (data : List Nat)
  | logged (ts : Nat) (link : List Char) (fid : Nat) (data : List Nat)
deriving DecidableEq, Repr

inductive StepResult
  | record (r : FrameRec)
  | noMatch
  | decodeError
deriving DecidableEq, Repr

/-- One iteration's parse of the stripped line (lines 111-118). -/
def lineStep : Mode → List Char → StepResult
  | .dump, line =>
    match matchCandump line with
    | none => .noMatch
    | some (g0, g1, g2) =>
      match mo_unpack g0 g1 g2 with
      | some (lk, fid, data) => .record (.live lk fid data)
      | none => .decodeError
  | .log, line =>
    match matchCandumpLog line with
    | none => .noMatch
    | some (g1, g2, g3, g4) =>
      match log_mo_unpack g1 g2 g3 g4 with
      | some (ts, lk, fid, data) => .record (.logged ts lk fid data)
      | none => .decodeError

/-- The records produced by the loop on a list of input lines: a
non-matching line (or an unpack exception) stops the stream. -/
def processLines (m : Mode) : List (List Char) → List FrameRec
  | [] => []
  | l :: ls =>
    match lineStep m l with
    | .record r => r :: processLines m ls
    | _ => []

/-! ### Batching and the queue (lines 88, 98-106, 152-157, 166-171)

`influx_json` is a single Python list object.  Line 156
`queue.put_nowait(influx_json)` enqueues a *reference* to that object
and line 157 `influx_json.clear()` empties the same object in place;
`queue = asyncio.Queue()` (line 88) has `maxsize = 0`, i.e. no bound,
and `put_nowait` never blocks.  The producer loop contains no `await`
(`sys.stdin.readline` is synchronous), so under asyncio's
run-to-completion scheduling `_influx_worker` first runs inside
`await queue.join()` (line 103 at EOF, line 169 on interrupt); each
`client.write_points(json, ...)` then sees the contents the shared
list has at drain time.

The state keeps the contents of that one list (`buf`), the number of
queued references to it (`qrefs`), and — as ghost data for stating
properties — the contents the list had at each `put_nowait`
(`snapshots`). -/

structure InfluxState where
  buf : List Nat
  qrefs : Nat
  snapshots : List (List Nat)
deriving DecidableEq

def chunkSize : Nat := 100

/-- `influx_json.append(json)` followed by the flush check of lines
155-157. -/
def pushPoint (s : InfluxState) (p : Nat) : InfluxState :=
  let buf := s.buf ++ [p]
  if chunkSize ≤ buf.length then
    { buf := [], qrefs := s.qrefs + 1, snapshots := s.snapshots ++ [buf] }
  else
    { s with buf := buf }

def initState : InfluxState := ⟨[], 0, []⟩

/-- The accumulator state after a stream of decoded points (the sink
worker never runs in between: the loop has no suspension point). -/
def runPoints (ps : List Nat) : InfluxState := ps.foldl pushPoint initState

/-- Batch contents received by `client.write_points` when the stream
ends (lines 98-106): a final `put_nowait(influx_json)` if the buffer
is non-empty, then `await queue.join()` drains every queued reference
— all of them the same object, now holding `buf`. -/
def eofDelivered (s : InfluxState) : List (List Nat) :=
  List.replicate (s.qrefs + if s.buf.isEmpty then 0 else 1) s.buf

/-- Batch contents received by `client.write_points` when a
`KeyboardInterrupt` is caught (lines 166-171): the handler only drains
the queue; `influx_json` is not enqueued. -/
def interruptDelivered (s : InfluxState) : List (List Nat) :=
  List.replicate s.qrefs s.buf

/-- `asyncio.Queue.put_nowait` succeeds unless `0 < maxsize ≤ qsize`
(in which case it raises `QueueFull`); the queue of line 88 is built
with `maxsize = 0`. -/
def putNowaitOk (maxsize qsize : Nat) : Bool := maxsize == 0 || qsize < maxsize

/-! ### The per-record console/publish step (lines 125-163)

The external collaborators used here live outside `src/`: the frame
database (`cantools.database`, spec section 1: given a frame id and
raw bytes it returns a signal mapping or indicates "unknown frame")
and `format_message_by_frame_id` (`subparsers/utils.py`). -/

/-- External frame database handle (spec sections 1 and 4.3): pure,
synchronous lookups; an unknown frame id is indicated, not thrown. -/
structure CanDatabase where
  decodeMessage : Nat → List Nat → Option (List (String × Int))
  messageName : Nat → Option String
  renderKnown : Nat → List Nat → Bool → Bool → String

/-- Skip-notice text echoed for an unknown frame (spec section 7:
"may still echo as unable to decode"). -/
def unknownFrameNotice (fid : Nat) : String :=
  "Unknown frame id " ++ toString fid

/-- Modelled from the spec: `format_message_by_frame_id` is defined in
`subparsers/utils.py`, which is not under `src/`.  Per section 4.3 it
renders the frame for the console echo and an unknown frame id yields
a skip notice rather than an error ("this is never fatal"). -/
def format_message_by_frame_id (db : CanDatabase) (fid : Nat)
    (data : List Nat) (dc sl : Bool) : String :=
  match db.messageName fid with
  | some _ => db.renderKnown fid data dc sl
  | none => unknownFrameNotice fid

/-- Session-wide constants (decode.py lines 18-20 and `args.database`):
fixed before the loop starts. -/
structure Session where
  importTime : String
  host : String
  uuid : String
  dbc : String
deriving DecidableEq

/-- The point dict built at lines 139-150. -/
structure InfluxPoint where
  measurement : String
  tagLink : String
  tagImportTime : String
  tagHost : String
  tagUuid : String
  tagDbc : String
  time : Nat
  fields : List (String × Int)
deriving DecidableEq

/-- Observable outcome of one record's trip through lines 125-163:
the console echo (line 132, `none` when quiet), the point appended to
`influx_json` (`none` when dropped), and whether the loop proceeds to
the next record. -/
structure StepOut where
  console : Option String
  point : Option InfluxPoint
  continues : Bool
deriving DecidableEq

/-- Lines 125-163 for one parsed record.  `signals` is falsy for an
empty dict, `message` for a missing message, so `if message and
signals:` (line 138) drops the record from the publish path in either
case; nothing in this region raises or breaks. -/
def recordStep (db : CanDatabase) (sess : Session) (quiet influxdb : Bool)
    (line : String) (ts : Nat) (lk : String) (fid : Nat) (data : List Nat)
    (dc sl : Bool) : StepOut :=
  let outLine := line ++ " ::" ++ format_message_by_frame_id db fid data dc sl
  let console := if quiet then none else some outLine
  let point :=
    if influxdb then
      match db.messageName fid, db.decodeMessage fid data with
      | some name, some signals =>
        if signals = [] then none
        else some { measurement := name, tagLink := lk,
                    tagImportTime := sess.importTime, tagHost := sess.host,
                    tagUuid := sess.uuid, tagDbc := sess.dbc,
                    time := ts, fields := signals }
      | _, _ => none
    else none
  { console := console, point := point, continues := true }

/-- Modelled from the spec: the Frame Filter of section 4.2 — no
filtering code exists under `src/`.  "Given a FrameRecord and an
optional non-empty set of allowed frame ids, return pass/reject.
Empty allow-list implies always pass." -/
def frameFilter (allow : List Nat) (fid : Nat) : Bool :=
  allow.isEmpty || allow.contains fid

/-- Modelled from the spec: filtering happens before decoding; a
rejected record produces no console output and no published point and
the pipeline proceeds (sections 4.2 and 8). -/
def filteredStep (allow : List Nat) (db : CanDatabase) (sess : Session)
    (quiet influxdb : Bool) (line : String) (ts : Nat) (lk : String)
    (fid : Nat) (data : List Nat) (dc sl : Bool) : StepOut :=
  if frameFilter allow fid then
    recordStep db sess quiet influxdb line ts lk fid data dc sl
  else
    { console := none, point := none, continues := true }

/-! ### Well-formed live-mode lines

`candump` output as described by spec section 4.1: a link name, two
spaces, an uppercase-hex id, three spaces, a bracketed byte count, two
spaces, space-separated uppercase-hex byte pairs. -/

/-- Uppercase hex digit of a value < 16. -/
def hexUpDigit (n : Nat) : Char :=
  if n < 10 then Char.ofNat (48 + n) else Char.ofNat (55 + n)

/-- The two hex digits of a byte. -/
def byteHexChars (b : Nat) : List Char := [hexUpDigit (b / 16), hexUpDigit (b % 16)]

/-- Space-separated uppercase-hex byte pairs. -/
def payloadChars : List Nat → List Char
  | [] => []
  | [b] => byteHexChars b
  | b :: bs => byteHexChars b ++ ' ' :: payloadChars bs

/-- A well-formed live-mode line. -/
def mkCandumpLine (link id cnt : List Char) (bytes : List Nat) : List Char :=
  link ++ ' ' :: ' ' :: (id ++ ' ' :: ' ' :: ' ' :: '[' ::
    (cnt ++ ']' :: ' ' :: ' ' :: payloadChars bytes))

/-! ### The boundedness property asserted for the batch queue -/

/-- The property claimed of the queue: some positive capacity bounds
the number of queued batches in every reachable state, and `put_nowait`
fails (blocks the producer) once the capacity is reached. -/
def queueBoundedClaim : Prop :=
  ∃ C, 0 < C ∧ (∀ ps : List Nat, (runPoints ps).qrefs ≤ C) ∧
    ∀ q, C ≤ q → putNowaitOk 0 q = false

/-! ### Concrete fixtures used by several properties -/

/-- The spec's log-mode scenario line. -/
def c6line : List Char := "(1575305161.758357) can0 201#0000000062".data

/-- The spec's live-mode scenario line. -/
def vcanLine : List Char := "vcan0  1F0   [8]  00 00 00 00 00 00 1B C1".data

/-- A line accepted by `RE_CANDUMP_LOG` whose id field is not hex. -/
def badIdLine : List Char := "(1575305161.758357) can0 20g#1122".data

/-- A line accepted by `RE_CANDUMP_LOG` whose payload field is not hex. -/
def badPayloadLine : List Char := "(1575305161.758357) can0 201#zz".data

/-- A database handle that knows no frame. -/
def emptyDb : CanDatabase := ⟨fun _ _ => none, fun _ => none, fun _ _ _ _ => ""⟩

/-- A concrete session. -/
def sess0 : Session := ⟨"2019-12-02T16:46:01Z", "host0", "uuid0", "db.dbc"⟩

/-! ## Helper lemmas -/

theorem runPoints_append (ps : List Nat) (p : Nat) :
    runPoints (ps ++ [p]) = pushPoint (runPoints ps) p := by
  simp [runPoints, List.foldl_append]

/-- State invariant of the accumulator: the number of `put_nowait`
calls so far and the current buffer contents. -/
theorem runPoints_qrefs_buf (ps : List Nat) :
    (runPoints ps).qrefs = ps.length / chunkSize ∧
    (runPoints ps).buf = ps.drop (chunkSize * (ps.length / chunkSize)) := by
  induction ps using List.reverseRecOn with
  | nil => exact ⟨rfl, rfl⟩
  | append_singleton ps p ih =>
    obtain ⟨hq, hb⟩ := ih
    rw [runPoints_append]
    simp only [chunkSize] at hq hb ⊢
    have hlen : (runPoints ps).buf.length = ps.length % 100 := by
      rw [hb, List.length_drop]
      omega
    have hcond : 100 ≤ ((runPoints ps).buf ++ [p]).length ↔ ps.length % 100 = 99 := by
      simp only [List.length_append, List.length_singleton, hlen]
      omega
    have hlen1 : (ps ++ [p]).length = ps.length + 1 := by simp
    by_cases hfull : ps.length % 100 = 99
    · have hif : 100 ≤ ((runPoints ps).buf ++ [p]).length := hcond.mpr hfull
      have hq' : (ps ++ [p]).length / 100 = ps.length / 100 + 1 := by
        rw [hlen1]; omega
      refine ⟨?_, ?_⟩
      · simp only [pushPoint, chunkSize, if_pos hif, hq, hq']
      · have hdrop : 100 * ((ps ++ [p]).length / 100) = (ps ++ [p]).length := by
          rw [hlen1]; omega
        simp only [pushPoint, chunkSize, if_pos hif]
        rw [hdrop, List.drop_length]
    · have hif : ¬ 100 ≤ ((runPoints ps).buf ++ [p]).length := fun h => hfull (hcond.mp h)
      have hq' : (ps ++ [p]).length / 100 = ps.length / 100 := by
        rw [hlen1]; omega
      refine ⟨?_, ?_⟩
      · simp only [pushPoint, chunkSize, if_neg hif, hq, hq']
      · have hle : 100 * (ps.length / 100) ≤ ps.length := by omega
        simp only [pushPoint, chunkSize, if_neg hif, hq']
        rw [hb, List.drop_append_of_le_length hle]

theorem takeWhile_all {p : Char → Bool} (l : List Char) (hl : l.all p = true) :
    l.takeWhile p = l := by
  induction l with
  | nil => rfl
  | cons a l ih =>
    simp only [List.all_cons, Bool.and_eq_true] at hl
    simp [List.takeWhile_cons, hl.1, ih hl.2]

theorem dropWhile_all {p : Char → Bool} (l : List Char) (hl : l.all p = true) :
    l.dropWhile p = [] := by
  induction l with
  | nil => rfl
  | cons a l ih =>
    simp only [List.all_cons, Bool.and_eq_true] at hl
    simp [List.dropWhile_cons, hl.1, ih hl.2]

theorem takeWhile_append_cons {p : Char → Bool} (l : List Char) {c : Char}
    (r : List Char) (hl : l.all p = true) (hc : p c = false) :
    (l ++ c :: r).takeWhile p = l := by
  induction l with
  | nil => simp [List.takeWhile_cons, hc]
  | cons a l ih =>
    simp only [List.all_cons, Bool.and_eq_true] at hl
    simp [List.takeWhile_cons, hl.1, ih hl.2]

theorem dropWhile_append_cons {p : Char → Bool} (l : List Char) {c : Char}
    (r : List Char) (hl : l.all p = true) (hc : p c = false) :
    (l ++ c :: r).dropWhile p = c :: r := by
  induction l with
  | nil => simp [List.dropWhile_cons, hc]
  | cons a l ih =>
    simp only [List.all_cons, Bool.and_eq_true] at hl
    simp [List.dropWhile_cons, hl.1, ih hl.2]

/-! Facts about the rendered hex digits. -/

theorem hexUpDigit_isHexUp : ∀ n < 16, isHexUp (hexUpDigit n) = true := by decide

theorem hexUpDigit_ne_space : ∀ n < 16, (hexUpDigit n = ' ') = False := by decide

theorem hexUpDigit_not_space : ∀ n < 16, isPySpace (hexUpDigit n) = false := by decide

theorem hexDigVal_hexUpDigit : ∀ n < 16, hexDigVal (hexUpDigit n) = some n := by decide

theorem hexUpDigit_filter_ne : ∀ n < 16, (hexUpDigit n != ' ') = true := by decide

theorem isHexUp_ne_space {c : Char} (h : isHexUp c = true) : c ≠ ' ' := by
  intro hc
  subst hc
  simp [isHexUp, isDig] at h

theorem isDig_ne_space {c : Char} (h : isDig c = true) : c ≠ ' ' := by
  intro hc
  subst hc
  simp [isDig] at h

theorem payloadChars_cons (b : Nat) (bs : List Nat) :
    ∃ t, payloadChars (b :: bs) =
      hexUpDigit (b / 16) :: hexUpDigit (b % 16) :: t := by
  cases bs with
  | nil => exact ⟨[], rfl⟩
  | cons b2 bs2 => exact ⟨' ' :: payloadChars (b2 :: bs2), rfl⟩

theorem payloadChars_all (bytes : List Nat) (hb : bytes.all (fun b => b < 256) = true) :
    (payloadChars bytes).all isHexOrSpace = true := by
  induction bytes with
  | nil => rfl
  | cons b bs ih =>
    simp only [List.all_cons, Bool.and_eq_true, decide_eq_true_eq] at hb
    have h1 : isHexOrSpace (hexUpDigit (b / 16)) = true := by
      simp [isHexOrSpace, hexUpDigit_isHexUp _ (show b / 16 < 16 by omega)]
    have h2 : isHexOrSpace (hexUpDigit (b % 16)) = true := by
      simp [isHexOrSpace, hexUpDigit_isHexUp _ (show b % 16 < 16 by omega)]
    have hsp : isHexOrSpace ' ' = true := by decide
    cases bs with
    | nil => simp [payloadChars, byteHexChars, List.all_cons, h1, h2]
    | cons b2 bs2 =>
      simp [payloadChars, byteHexChars, List.all_cons, h1, h2, hsp, ih hb.2]

/-! Failure cases of `matchTail`. -/

theorem matchTail_nil : matchTail [] = none := rfl

theorem matchTail_single (c : Char) : matchTail [c] = none := by
  by_cases h : c = ' ' <;> simp [matchTail, expectChar, h]

theorem matchTail_head_ne {c : Char} (h : c ≠ ' ') (l : List Char) :
    matchTail (c :: l) = none := by
  simp [matchTail, expectChar, h]

theorem matchTail_second_ne (c1 : Char) {c2 : Char} (h : c2 ≠ ' ') (l : List Char) :
    matchTail (c1 :: c2 :: l) = none := by
  by_cases h1 : c1 = ' ' <;> simp [matchTail, expectChar, h1, h]

theorem matchTail_no_hex {c : Char} (hc : isHexUp c = false) (l : List Char) :
    matchTail (' ' :: ' ' :: c :: l) = none := by
  simp [matchTail, expectChar, List.takeWhile_cons, hc]

theorem matchTail_two_spaces : matchTail [' ', ' '] = none := by
  simp [matchTail, expectChar]

/-- `matchTail` fails at the start of the payload area: after the
leading byte pair the grammar wants three spaces, but byte pairs are
separated by single spaces. -/
theorem matchTail_payload (bytes : List Nat)
    (hb : bytes.all (fun b => b < 256) = true) :
    matchTail (' ' :: ' ' :: payloadChars bytes) = none := by
  have hspf : isHexUp ' ' = false := by decide
  cases bytes with
  | nil => exact matchTail_two_spaces
  | cons b bs =>
    simp only [List.all_cons, Bool.and_eq_true, decide_eq_true_eq] at hb
    have hhd : isHexUp (hexUpDigit (b / 16)) = true :=
      hexUpDigit_isHexUp _ (show b / 16 < 16 by omega)
    have hhm : isHexUp (hexUpDigit (b % 16)) = true :=
      hexUpDigit_isHexUp _ (show b % 16 < 16 by omega)
    cases bs with
    | nil =>
      simp [matchTail, expectChar, payloadChars, byteHexChars,
            List.takeWhile_cons, List.dropWhile_cons, hhd, hhm]
    | cons b2 bs2 =>
      obtain ⟨t, ht⟩ := payloadChars_cons b2 bs2
      have hhd2 : isHexUp (hexUpDigit (b2 / 16)) = true := by
        simp only [List.all_cons, Bool.and_eq_true, decide_eq_true_eq] at hb
        exact hexUpDigit_isHexUp _ (by omega)
      simp [matchTail, expectChar, payloadChars, byteHexChars, ht,
            List.takeWhile_cons, List.dropWhile_cons, hhd, hhm, hspf,
            isHexUp_ne_space hhd2]

/-! Single-step reductions for the greedy scan. -/

theorem candumpSplit_cons_none {c : Char} {cs : List Char}
    (h1 : candumpSplit cs = none) (h2 : matchTail (c :: cs) = none) :
    candumpSplit (c :: cs) = none := by
  simp only [candumpSplit, h1, h2]

theorem candumpSplit_cons_some {c : Char} {cs : List Char}
    {g : List Char × List Char} (h1 : candumpSplit cs = some g) :
    candumpSplit (c :: cs) = some g := by
  simp only [candumpSplit, h1]

theorem candumpSplit_cons_fall {c : Char} {cs : List Char}
    (h1 : candumpSplit cs = none) :
    candumpSplit (c :: cs) = matchTail (c :: cs) := by
  simp only [candumpSplit, h1]

/-! The greedy scan never matches at a suffix strictly inside the
well-formed tail, so the split lands exactly after the link. -/

theorem candumpSplit_payload (bytes : List Nat)
    (hb : bytes.all (fun b => b < 256) = true) :
    candumpSplit (payloadChars bytes) = none := by
  induction bytes with
  | nil => rfl
  | cons b bs ih =>
    simp only [List.all_cons, Bool.and_eq_true, decide_eq_true_eq] at hb
    have hd := isHexUp_ne_space (hexUpDigit_isHexUp (b / 16) (by omega))
    have hm := isHexUp_ne_space (hexUpDigit_isHexUp (b % 16) (by omega))
    cases bs with
    | nil =>
      have c2 : candumpSplit [hexUpDigit (b % 16)] = none :=
        candumpSplit_cons_none rfl (matchTail_single _)
      have c1 : candumpSplit [hexUpDigit (b / 16), hexUpDigit (b % 16)] = none :=
        candumpSplit_cons_none c2 (matchTail_head_ne hd _)
      simpa only [payloadChars, byteHexChars] using c1
    | cons b2 bs2 =>
      obtain ⟨t, ht⟩ := payloadChars_cons b2 bs2
      have hd2 := isHexUp_ne_space (hexUpDigit_isHexUp (b2 / 16)
        (by simp only [List.all_cons, Bool.and_eq_true, decide_eq_true_eq] at hb; omega))
      have hrest : candumpSplit (payloadChars (b2 :: bs2)) = none := ih hb.2
      have hm1 : matchTail (' ' :: payloadChars (b2 :: bs2)) = none := by
        rw [ht]; exact matchTail_second_ne _ hd2 _
      have c3 : candumpSplit (' ' :: payloadChars (b2 :: bs2)) = none :=
        candumpSplit_cons_none hrest hm1
      have c2 : candumpSplit (hexUpDigit (b % 16) :: ' ' :: payloadChars (b2 :: bs2)) = none :=
        candumpSplit_cons_none c3 (matchTail_head_ne hm _)
      have c1 : candumpSplit (hexUpDigit (b / 16) :: hexUpDigit (b % 16) ::
          ' ' :: payloadChars (b2 :: bs2)) = none :=
        candumpSplit_cons_none c2 (matchTail_head_ne hd _)
      simpa only [payloadChars, byteHexChars, List.cons_append, List.nil_append] using c1

theorem candumpSplit_close (bytes : List Nat)
    (hb : bytes.all (fun b => b < 256) = true) :
    candumpSplit (']' :: ' ' :: ' ' :: payloadChars bytes) = none := by
  have hp := candumpSplit_payload bytes hb
  have h1 : candumpSplit (' ' :: payloadChars bytes) = none := by
    refine candumpSplit_cons_none hp ?_
    cases hby : bytes with
    | nil => exact matchTail_single _
    | cons b bs =>
      obtain ⟨t, ht⟩ := payloadChars_cons b bs
      have hd : hexUpDigit (b / 16) ≠ ' ' := by
        rw [hby] at hb
        simp only [List.all_cons, Bool.and_eq_true, decide_eq_true_eq] at hb
        exact isHexUp_ne_space (hexUpDigit_isHexUp _ (by omega))
      rw [ht]
      exact matchTail_second_ne _ hd _
  have h2 : candumpSplit (' ' :: ' ' :: payloadChars bytes) = none :=
    candumpSplit_cons_none h1 (matchTail_payload bytes hb)
  exact candumpSplit_cons_none h2 (matchTail_head_ne (by decide) _)

theorem candumpSplit_cnt (cnt : List Char) (hcnt : cnt.all isDig = true)
    (bytes : List Nat) (hb : bytes.all (fun b => b < 256) = true) :
    candumpSplit (cnt ++ ']' :: ' ' :: ' ' :: payloadChars bytes) = none := by
  induction cnt with
  | nil => exact candumpSplit_close bytes hb
  | cons c cs ih =>
    simp only [List.all_cons, Bool.and_eq_true] at hcnt
    exact candumpSplit_cons_none (ih hcnt.2)
      (matchTail_head_ne (isDig_ne_space hcnt.1) _)

theorem candumpSplit_bracket (cnt : List Char) (hcnt : cnt.all isDig = true)
    (bytes : List Nat) (hb : bytes.all (fun b => b < 256) = true) :
    candumpSplit (' ' :: ' ' :: ' ' :: '[' ::
      (cnt ++ ']' :: ' ' :: ' ' :: payloadChars bytes)) = none := by
  have hob : ('[' : Char) ≠ ' ' := by decide
  have h4 : candumpSplit ('[' :: (cnt ++ ']' :: ' ' :: ' ' :: payloadChars bytes)) = none :=
    candumpSplit_cons_none (candumpSplit_cnt cnt hcnt bytes hb) (matchTail_head_ne hob _)
  have h3 : candumpSplit (' ' :: '[' :: (cnt ++ ']' :: ' ' :: ' ' :: payloadChars bytes)) = none :=
    candumpSplit_cons_none h4 (matchTail_second_ne _ hob _)
  have h2 : candumpSplit (' ' :: ' ' :: '[' :: (cnt ++ ']' :: ' ' :: ' ' :: payloadChars bytes)) = none :=
    candumpSplit_cons_none h3 (matchTail_no_hex (by decide) _)
  exact candumpSplit_cons_none h2 (matchTail_no_hex (by decide) _)

theorem candumpSplit_id (id : List Char) (hid : id.all isHexUp = true)
    (cnt : List Char) (hcnt : cnt.all isDig = true)
    (bytes : List Nat) (hb : bytes.all (fun b => b < 256) = true) :
    candumpSplit (id ++ ' ' :: ' ' :: ' ' :: '[' ::
      (cnt ++ ']' :: ' ' :: ' ' :: payloadChars bytes)) = none := by
  induction id with
  | nil => exact candumpSplit_bracket cnt hcnt bytes hb
  | cons c cs ih =>
    simp only [List.all_cons, Bool.and_eq_true] at hid
    exact candumpSplit_cons_none (ih hid.2)
      (matchTail_head_ne (isHexUp_ne_space hid.1) _)

/-- `matchTail` succeeds at the canonical split of a well-formed line. -/
theorem matchTail_S0 (id cnt : List Char) (bytes : List Nat)
    (hid1 : id ≠ []) (hid3 : id.all isHexUp = true)
    (hcnt1 : cnt ≠ []) (hcnt2 : cnt.all isDig = true)
    (hb2 : bytes.all (fun b => b < 256) = true) :
    matchTail (' ' :: ' ' :: (id ++ ' ' :: ' ' :: ' ' :: '[' ::
      (cnt ++ ']' :: ' ' :: ' ' :: payloadChars bytes))) =
      some (id, payloadChars bytes) := by
  have hsp : isHexUp ' ' = false := by decide
  have hbd : isDig ']' = false := by decide
  have htake : (id ++ ' ' :: ' ' :: ' ' :: '[' ::
      (cnt ++ ']' :: ' ' :: ' ' :: payloadChars bytes)).takeWhile isHexUp = id :=
    takeWhile_append_cons id _ hid3 hsp
  have hdrop : (id ++ ' ' :: ' ' :: ' ' :: '[' ::
      (cnt ++ ']' :: ' ' :: ' ' :: payloadChars bytes)).dropWhile isHexUp =
      ' ' :: ' ' :: ' ' :: '[' :: (cnt ++ ']' :: ' ' :: ' ' :: payloadChars bytes) :=
    dropWhile_append_cons id _ hid3 hsp
  have htake2 : (cnt ++ ']' :: ' ' :: ' ' :: payloadChars bytes).takeWhile isDig = cnt :=
    takeWhile_append_cons cnt _ hcnt2 hbd
  have hdrop2 : (cnt ++ ']' :: ' ' :: ' ' :: payloadChars bytes).dropWhile isDig =
      ']' :: ' ' :: ' ' :: payloadChars bytes :=
    dropWhile_append_cons cnt _ hcnt2 hbd
  have hg2 : (payloadChars bytes).dropWhile isPySpace = payloadChars bytes := by
    cases hby : bytes with
    | nil => rfl
    | cons b bs =>
      obtain ⟨t, ht⟩ := payloadChars_cons b bs
      have : isPySpace (hexUpDigit (b / 16)) = false := by
        rw [hby] at hb2
        simp only [List.all_cons, Bool.and_eq_true, decide_eq_true_eq] at hb2
        exact hexUpDigit_not_space _ (by omega)
      rw [ht, List.dropWhile_cons, this]
      simp
  have hps : isPySpace ' ' = true := by decide
  simp [matchTail, expectChar, htake, hdrop, htake2, hdrop2,
        List.dropWhile_cons, hps, hg2, hid1, hcnt1, payloadChars_all bytes hb2,
        -List.takeWhile_eq_nil_iff, -List.dropWhile_eq_nil_iff]

/-- The greedy match of `RE_CANDUMP` on a well-formed line: group 1 is
the id, group 2 the payload area, regardless of the link text. -/
theorem candumpSplit_mkLine (link id cnt : List Char) (bytes : List Nat)
    (hid1 : id ≠ []) (hid3 : id.all isHexUp = true)
    (hcnt1 : cnt ≠ []) (hcnt2 : cnt.all isDig = true)
    (hb2 : bytes.all (fun b => b < 256) = true) :
    candumpSplit (mkCandumpLine link id cnt bytes) = some (id, payloadChars bytes) := by
  have h1 : candumpSplit (' ' :: (id ++ ' ' :: ' ' :: ' ' :: '[' ::
      (cnt ++ ']' :: ' ' :: ' ' :: payloadChars bytes))) = none := by
    cases id with
    | nil => cases hid1 rfl
    | cons c cs =>
      have hidall : (c :: cs).all isHexUp = true := hid3
      simp only [List.all_cons, Bool.and_eq_true] at hid3
      refine candumpSplit_cons_none
        (candumpSplit_id (c :: cs) hidall cnt hcnt2 bytes hb2) ?_
      exact matchTail_second_ne _ (isHexUp_ne_space hid3.1) _
  have hS0 : candumpSplit (' ' :: ' ' :: (id ++ ' ' :: ' ' :: ' ' :: '[' ::
      (cnt ++ ']' :: ' ' :: ' ' :: payloadChars bytes))) = some (id, payloadChars bytes) :=
    (candumpSplit_cons_fall h1).trans
      (matchTail_S0 id cnt bytes hid1 hid3 hcnt1 hcnt2 hb2)
  unfold mkCandumpLine
  induction link with
  | nil => exact hS0
  | cons c cs ih =>
    rw [List.cons_append]
    exact candumpSplit_cons_some ih

/-! Unpacking a well-formed line's groups. -/

theorem hexDigVal_upVal {c : Char} (h : isHexUp c = true) :
    hexDigVal c = some (upVal c) := by
  simp only [isHexUp, isDig, Bool.or_eq_true, Bool.and_eq_true,
             decide_eq_true_eq] at h
  rcases h with h | h
  · have hd : isDig c = true := by
      simp [isDig, h.1, h.2]
    simp [hexDigVal, upVal, h, hd]
  · have h9 : ¬ (48 ≤ c.toNat ∧ c.toNat ≤ 57) := by omega
    have hd : isDig c = false := by
      simp [isDig]; omega
    simp [hexDigVal, upVal, h, h9, hd]

theorem unhexlify8_unpack (l : List Char) (hlen : l.length = 8)
    (h : l.all isHexUp = true) :
    (unhexlify l).bind unpackU32BE = some (hexValUp l) := by
  match l, hlen with
  | [c1, c2, c3, c4, c5, c6, c7, c8], _ =>
    simp only [List.all_cons, List.all_nil, Bool.and_eq_true, and_true] at h
    obtain ⟨h1, h2, h3, h4, h5, h6, h7, h8⟩ := h
    simp only [unhexlify, hexDigVal_upVal h1, hexDigVal_upVal h2,
               hexDigVal_upVal h3, hexDigVal_upVal h4, hexDigVal_upVal h5,
               hexDigVal_upVal h6, hexDigVal_upVal h7, hexDigVal_upVal h8,
               Option.bind_some, unpackU32BE, hexValUp, List.foldl_cons,
               List.foldl_nil]
    exact congrArg some (by omega)

theorem replicate_zero_all_isHexUp (n : Nat) :
    (List.replicate n '0').all isHexUp = true := by
  induction n with
  | zero => rfl
  | succ n ih =>
    simp only [List.replicate_succ, List.all_cons, ih, Bool.and_true]
    decide

/-- Removing the single separator spaces from a rendered payload and
unhexlifying recovers exactly the original bytes. -/
theorem unhexlify_payload (bytes : List Nat)
    (hb : bytes.all (fun b => b < 256) = true) :
    unhexlify ((payloadChars bytes).filter (fun c => c != ' ')) = some bytes := by
  induction bytes with
  | nil => rfl
  | cons b bs ih =>
    simp only [List.all_cons, Bool.and_eq_true, decide_eq_true_eq] at hb
    have hdiv : b / 16 < 16 := by omega
    have hmod : b % 16 < 16 := by omega
    have hfd := hexUpDigit_filter_ne _ hdiv
    have hfm := hexUpDigit_filter_ne _ hmod
    have hvd := hexDigVal_hexUpDigit _ hdiv
    have hvm := hexDigVal_hexUpDigit _ hmod
    have hbv : 16 * (b / 16) + b % 16 = b := by omega
    cases bs with
    | nil =>
      simp [payloadChars, byteHexChars, List.filter_cons, hfd, hfm,
            unhexlify, hvd, hvm, hbv]
    | cons b2 bs2 =>
      have hsf : ((' ' : Char) != ' ') = false := by decide
      have hfil : (payloadChars (b :: b2 :: bs2)).filter (fun c => c != ' ') =
          hexUpDigit (b / 16) :: hexUpDigit (b % 16) ::
            (payloadChars (b2 :: bs2)).filter (fun c => c != ' ') := by
        simp [payloadChars, byteHexChars, List.filter_cons, hfd, hfm, hsf]
      rw [hfil]
      simp [unhexlify, hvd, hvm, ih hb.2, hbv]

/-- `_mo_unpack` on the canonical groups of a well-formed line:
the record is (whole line, numeric id value, payload bytes). -/
theorem mo_unpack_mkLine (link id cnt : List Char) (bytes : List Nat)
    (hid2 : id.length ≤ 8) (hid3 : id.all isHexUp = true)
    (hb2 : bytes.all (fun b => b < 256) = true) :
    mo_unpack (mkCandumpLine link id cnt bytes) id (payloadChars bytes) =
      some (mkCandumpLine link id cnt bytes,
            hexValUp (List.replicate (8 - id.length) '0' ++ id), bytes) := by
  have hlen : (List.replicate (8 - id.length) '0' ++ id).length = 8 := by
    simp [List.length_replicate]
    omega
  have hall : (List.replicate (8 - id.length) '0' ++ id).all isHexUp = true := by
    rw [List.all_append, replicate_zero_all_isHexUp, hid3]
    rfl
  have hfid := unhexlify8_unpack _ hlen hall
  obtain ⟨fidBytes, hfb, hup⟩ := Option.bind_eq_some.mp hfid
  simp [mo_unpack, hfb, hup, unhexlify_payload bytes hb2]

/-! ## The claims -/

set_option maxRecDepth 4000 in
/-- C1: on a stream of 150 decodable points the batch-size-100
invariant is violated at the sink: `queue.put_nowait(influx_json)`
(line 156) enqueues a reference to the list that line 157 then clears
in place, and the worker first runs during `queue.join`, so both
deliveries carry the buffer's final contents (points 100..149) —
points 0..99 are lost and the concatenation does not reproduce the
input, even though the snapshot taken at each `put_nowait` was the
correct full batch. -/
theorem batch_alias_code_bug :
    (runPoints (List.range 150)).snapshots = [List.range 100] ∧
    eofDelivered (runPoints (List.range 150)) =
      [List.drop 100 (List.range 150), List.drop 100 (List.range 150)] ∧
    (eofDelivered (runPoints (List.range 150))).flatten ≠ List.range 150 := by
  exact ⟨by decide, by decide, by decide⟩

/-- C2: interrupting after 5 decoded points (no full batch yet) loses
all 5: the `KeyboardInterrupt` handler (lines 166-171) drains the
queue but never enqueues the partial `influx_json`, so with an empty
queue nothing at all reaches `write_points`. -/
theorem interrupt_loss_code_bug :
    (runPoints (List.range 5)).buf = List.range 5 ∧
    interruptDelivered (runPoints (List.range 5)) = [] := by
  exact ⟨by decide, by decide⟩

/-- C3 (counterexample): in log mode a non-matching line does not
"skip and continue": it breaks the loop (line 118), so a decodable
line that follows is never processed. -/
theorem log_mode_nomatch_counterexample :
    processLines .log ["# comment".data, c6line] = [] ∧
    processLines .log [c6line] =
      [.logged 1575305161758356992 "can0".data 513 [0, 0, 0, 0, 98, 0, 0, 0]] := by
  exact ⟨by decide, by decide⟩

/-- C3 (amended): in both modes — log as well as live — a line that
does not match the active grammar stops decoding of the stream. -/
theorem nomatch_stops_both_modes (m : Mode) (l : List Char)
    (ls : List (List Char)) (h : lineStep m l = .noMatch) :
    processLines m (l :: ls) = [] := by
  simp [processLines, h]

theorem nomatch_stops_both_modes_witness :
    processLines .log ("no frame".data :: [c6line]) = [] :=
  nomatch_stops_both_modes .log "no frame".data [c6line] (by decide)

/-- C4 (counterexample): no positive capacity bounds the queue and
makes `put_nowait` fail when it is reached — the queue of line 88 is
`asyncio.Queue()` with `maxsize = 0`, whose `put_nowait` always
succeeds. -/
theorem queue_bounded_counterexample : ¬ queueBoundedClaim := by
  rintro ⟨C, hC, -, hblock⟩
  have h := hblock C le_rfl
  simp [putNowaitOk] at h

/-- C4 (amended): the queue is unbounded — `put_nowait` on the
`maxsize = 0` queue always succeeds, never blocking the producer, and
with the worker never scheduled (the loop has no await) the queue
holds one reference per 100 points, growing without bound. -/
theorem queue_growth_no_backpressure (ps : List Nat) :
    putNowaitOk 0 (runPoints ps).qrefs = true ∧
    (runPoints ps).qrefs = ps.length / chunkSize :=
  ⟨rfl, (runPoints_qrefs_buf ps).1⟩

/-- C6 (counterexample): the scenario line does not produce the
claimed record: the payload is right-padded (`ljust(16, '0')`), so
0x62 is the fifth byte, not the eighth, and the timestamp passes
through binary64 floats, giving 1575305161758356992 ns rather than
1575305161758357000. -/
theorem log_scenario_counterexample :
    lineStep .log c6line ≠
      .record (.logged 1575305161758357000 "can0".data 513
        [0, 0, 0, 0, 0, 0, 0, 98]) := by
  decide

/-- C6 (amended): the scenario line parses to timestamp
1575305161758356992 ns (`int(float('1575305161.758357') * 1e9)` under
binary64 arithmetic, 8 ns below the exact product), link `can0`,
frame id 0x201, and payload 00 00 00 00 62 00 00 00 (hex right-padded
to 16 digits). -/
theorem log_scenario_actual :
    lineStep .log c6line =
      .record (.logged 1575305161758356992 "can0".data 513
        [0, 0, 0, 0, 98, 0, 0, 0]) := by
  decide

/-- C8: a record whose frame id is unknown to the database is
non-fatal on both paths: the loop continues, no point is published,
and (unless quiet) the console still echoes the line with the skip
notice. -/
theorem unknown_frame_nonfatal (db : CanDatabase) (sess : Session)
    (quiet influxdb : Bool) (line : String) (ts : Nat) (lk : String)
    (fid : Nat) (data : List Nat) (dc sl : Bool)
    (hname : db.messageName fid = none)
    (hdec : db.decodeMessage fid data = none) :
    (recordStep db sess quiet influxdb line ts lk fid data dc sl).continues = true ∧
    (recordStep db sess quiet influxdb line ts lk fid data dc sl).point = none ∧
    (quiet = false →
      (recordStep db sess quiet influxdb line ts lk fid data dc sl).console =
        some (line ++ " ::" ++ unknownFrameNotice fid)) := by
  refine ⟨rfl, ?_, ?_⟩
  · simp [recordStep, hname, hdec]
  · intro hquiet
    simp [recordStep, hquiet, format_message_by_frame_id, hname]

theorem unknown_frame_nonfatal_witness :
    (recordStep emptyDb sess0 false true "ln" 7 "can0" 513 [1] true false).continues = true ∧
    (recordStep emptyDb sess0 false true "ln" 7 "can0" 513 [1] true false).point = none ∧
    (false = false →
      (recordStep emptyDb sess0 false true "ln" 7 "can0" 513 [1] true false).console =
        some ("ln" ++ " ::" ++ unknownFrameNotice 513)) :=
  unknown_frame_nonfatal emptyDb sess0 false true "ln" 7 "can0" 513 [1]
    true false rfl rfl

/-- C9: with a non-empty allow-list, a record whose frame id is not a
member is dropped before decoding — no console output, no point, and
the pipeline continues; with an empty allow-list every record passes
the filter.  (Spec-modelled: no filter exists under `src/`.) -/
theorem frame_filter_drops (allow : List Nat) (db : CanDatabase)
    (sess : Session) (quiet influxdb : Bool) (line : String) (ts : Nat)
    (lk : String) (fid : Nat) (data : List Nat) (dc sl : Bool) :
    (allow ≠ [] → allow.contains fid = false →
      filteredStep allow db sess quiet influxdb line ts lk fid data dc sl =
        ⟨none, none, true⟩) ∧
    frameFilter [] fid = true := by
  constructor
  · intro h1 h2
    have hf : frameFilter allow fid = false := by
      cases allow with
      | nil => exact absurd rfl h1
      | cons a as =>
        simp only [frameFilter, List.isEmpty_cons, Bool.false_or]
        exact h2
    simp [filteredStep, hf]
  · rfl

theorem frame_filter_drops_witness :
    (filteredStep [496] emptyDb sess0 false true "ln" 7 "can0" 513 [1] true false =
      ⟨none, none, true⟩) ∧
    frameFilter [] 513 = true := by
  have h := frame_filter_drops [496] emptyDb sess0 false true "ln" 7 "can0" 513
    [1] true false
  exact ⟨h.1 (by decide) (by decide), h.2⟩

/-- C5: a well-formed live-mode line with k payload byte pairs parses
to exactly those k bytes and to the frame id obtained by left-zero
padding the hex id to 8 digits and reading it as a big-endian unsigned
32-bit integer.  (The line must contain no newline — `readline` plus
`strip` guarantees this; the modelled `.`/`$` semantics assume it.) -/
theorem live_parse_ok (link id cnt : List Char) (bytes : List Nat)
    (hlink : link.all (fun c => c != '\n') = true)
    (hid1 : id ≠ []) (hid2 : id.length ≤ 8) (hid3 : id.all isHexUp = true)
    (hcnt1 : cnt ≠ []) (hcnt2 : cnt.all isDig = true)
    (hb1 : bytes.length ≤ 8) (hb2 : bytes.all (fun b => b < 256) = true) :
    matchCandump (mkCandumpLine link id cnt bytes) =
      some (mkCandumpLine link id cnt bytes, id, payloadChars bytes) ∧
    mo_unpack (mkCandumpLine link id cnt bytes) id (payloadChars bytes) =
      some (mkCandumpLine link id cnt bytes,
            hexValUp (List.replicate (8 - id.length) '0' ++ id), bytes) := by
  refine ⟨?_, mo_unpack_mkLine link id cnt bytes hid2 hid3 hb2⟩
  simp [matchCandump,
        candumpSplit_mkLine link id cnt bytes hid1 hid3 hcnt1 hcnt2 hb2]

theorem live_parse_ok_witness :
    matchCandump (mkCandumpLine "vcan0".data "1F0".data "8".data
        [0, 0, 0, 0, 0, 0, 27, 193]) =
      some (mkCandumpLine "vcan0".data "1F0".data "8".data
        [0, 0, 0, 0, 0, 0, 27, 193],
        "1F0".data, payloadChars [0, 0, 0, 0, 0, 0, 27, 193]) ∧
    mo_unpack (mkCandumpLine "vcan0".data "1F0".data "8".data
        [0, 0, 0, 0, 0, 0, 27, 193]) "1F0".data
        (payloadChars [0, 0, 0, 0, 0, 0, 27, 193]) =
      some (mkCandumpLine "vcan0".data "1F0".data "8".data
        [0, 0, 0, 0, 0, 0, 27, 193], 496, [0, 0, 0, 0, 0, 0, 27, 193]) := by
  have h := live_parse_ok "vcan0".data "1F0".data "8".data
    [0, 0, 0, 0, 0, 0, 27, 193] (by decide) (by decide) (by decide) (by decide)
    (by decide) (by decide) (by decide) (by decide)
  exact ⟨h.1, h.2.trans (by decide)⟩

/-- C7 (counterexample): on the spec's live-mode scenario line,
`_mo_unpack` sets `link = mo.group(0)` — the whole matched line — not
the channel name `vcan0` that begins the line. -/
theorem live_link_counterexample :
    matchCandump vcanLine =
      some (vcanLine, "1F0".data, "00 00 00 00 00 00 1B C1".data) ∧
    mo_unpack vcanLine "1F0".data "00 00 00 00 00 00 1B C1".data =
      some (vcanLine, 496, [0, 0, 0, 0, 0, 0, 27, 193]) ∧
    vcanLine ≠ "vcan0".data := by
  exact ⟨by decide, by decide, by decide⟩

/-- C7 (amended): for every well-formed live-mode line the parsed
record's link field is the entire matched line (group 0), and every
published point's tags other than `link` are the session constants
fixed at pipeline start, while its `link` tag is the record's link. -/
theorem live_link_whole_line (link id cnt : List Char) (bytes : List Nat)
    (hlink : link.all (fun c => c != '\n') = true)
    (hid1 : id ≠ []) (hid2 : id.length ≤ 8) (hid3 : id.all isHexUp = true)
    (hcnt1 : cnt ≠ []) (hcnt2 : cnt.all isDig = true)
    (hb2 : bytes.all (fun b => b < 256) = true)
    (db : CanDatabase) (sess : Session) (quiet influxdb : Bool)
    (line : String) (ts : Nat) (lk : String) (fid : Nat) (data : List Nat)
    (dc sl : Bool) :
    mo_unpack (mkCandumpLine link id cnt bytes) id (payloadChars bytes) =
      some (mkCandumpLine link id cnt bytes,
            hexValUp (List.replicate (8 - id.length) '0' ++ id), bytes) ∧
    (∀ p, (recordStep db sess quiet influxdb line ts lk fid data dc sl).point = some p →
      p.tagLink = lk ∧ p.tagImportTime = sess.importTime ∧
      p.tagHost = sess.host ∧ p.tagUuid = sess.uuid ∧ p.tagDbc = sess.dbc) := by
  refine ⟨mo_unpack_mkLine link id cnt bytes hid2 hid3 hb2, ?_⟩
  intro p hp
  simp only [recordStep] at hp
  split at hp
  · split at hp
    · split at hp
      · exact absurd hp (by simp)
      · rw [Option.some_inj] at hp
        subst hp
        exact ⟨rfl, rfl, rfl, rfl, rfl⟩
    · exact absurd hp (by simp)
  · exact absurd hp (by simp)

theorem live_link_whole_line_witness :
    mo_unpack (mkCandumpLine "vcan0".data "1F0".data "8".data
        [0, 0, 0, 0, 0, 0, 27, 193]) "1F0".data
        (payloadChars [0, 0, 0, 0, 0, 0, 27, 193]) =
      some (mkCandumpLine "vcan0".data "1F0".data "8".data
        [0, 0, 0, 0, 0, 0, 27, 193],
        hexValUp (List.replicate (8 - ("1F0".data).length) '0' ++ "1F0".data),
        [0, 0, 0, 0, 0, 0, 27, 193]) ∧
    (∀ p, (recordStep emptyDb sess0 false true "ln" 7 "can0" 513 [1]
        true false).point = some p →
      p.tagLink = "can0" ∧ p.tagImportTime = sess0.importTime ∧
      p.tagHost = sess0.host ∧ p.tagUuid = sess0.uuid ∧ p.tagDbc = sess0.dbc) :=
  live_link_whole_line "vcan0".data "1F0".data "8".data
    [0, 0, 0, 0, 0, 0, 27, 193] (by decide) (by decide) (by decide) (by decide)
    (by decide) (by decide) (by decide) emptyDb sess0 false true "ln" 7 "can0"
    513 [1] true false

/-- C10: the log-mode recognizer admits non-hex alphanumerics in the
id and payload fields, and on such accepted lines the unhexlify step
raises (`binascii.Error`) instead of producing a record or reporting
"not a frame". -/
theorem log_recognizer_not_total :
    (matchCandumpLog badIdLine).isSome = true ∧
    lineStep .log badIdLine = .decodeError ∧
    (matchCandumpLog badPayloadLine).isSome = true ∧
    lineStep .log badPayloadLine = .decodeError := by
  exact ⟨by decide, by decide, by decide, by decide⟩

end Decode
